import Mathlib

/-!
Shallow embedding of the save pass of `rmf_sandbox/src/save_load.rs`:
the scene-to-document serializer that re-keys each level's sparse vertex
identifiers to a dense zero-based sequence, rewrites every dependent
entity's vertex-reference pair through the re-keying map, assembles the
levels into a name-keyed sorted collection, and hands the document to the
persistence sink.  Entity kinds (`Vertex`, `Lane`, `Wall`, `Measurement`,
`Model`, `CrowdSim`, `LevelVerticesManager`, ...) are declared in modules
of the repository that are not part of the provided sources; those
carriers are modelled from the spec, with opaque `Nat` payloads for the
attributes the save pass copies verbatim.
-/

/-- Association-list lookup, modelling `HashMap::get` / `BTreeMap::get`:
returns the value at the first matching key. -/
def lookupA {α β : Type} [DecidableEq α] : List (α × β) → α → Option β
  | [], _ => none
  | (k, v) :: rest, key => if k = key then some v else lookupA rest key

/-- Association-list insert, modelling `HashMap::insert`: replaces the
value at an existing key, otherwise appends the new binding. -/
def insertA {α β : Type} [DecidableEq α] : List (α × β) → α → β → List (α × β)
  | [], k, v => [(k, v)]
  | (k', v') :: rest, k, v =>
    if k' = k then (k, v) :: rest else (k', v') :: insertA rest k v

/-- Modelled from the spec: a point entity with geometric/semantic
attributes (`vertex.rs` is not among the provided sources); the payload is
opaque to the save pass, which copies vertices verbatim. -/
structure Vertex where
  data : Nat
deriving Repr, DecidableEq

/-- Modelled from the spec: a dependent entity storing an ordered pair of
vertex identifiers plus its own auxiliary attributes (`lane.rs` is not
among the provided sources). -/
structure Lane where
  a : Nat
  b : Nat
  props : Nat
deriving Repr, DecidableEq

/-- Modelled from the spec: a dependent entity storing an ordered pair of
vertex identifiers plus its own auxiliary attributes (`measurement.rs` is
not among the provided sources). -/
structure Measurement where
  a : Nat
  b : Nat
  props : Nat
deriving Repr, DecidableEq

/-- Modelled from the spec: a dependent entity storing an ordered pair of
vertex identifiers plus its own auxiliary attributes (`wall.rs` is not
among the provided sources). -/
structure Wall where
  a : Nat
  b : Nat
  props : Nat
deriving Repr, DecidableEq

/-- Modelled from the spec: a placed object entity with no vertex
references, copied verbatim (`model.rs` is not among the provided
sources). -/
structure Model where
  data : Nat
deriving Repr, DecidableEq

/-- Modelled from the spec: the map-scoped crowd-simulation configuration,
copied verbatim (`crowd_sim.rs` is not among the provided sources). -/
structure CrowdSim where
  data : Nat
deriving Repr, DecidableEq

/-- Modelled from the spec: the `LevelExtra` component of `spawner.rs`
(not among the provided sources) carrying the level metadata fields the
save pass copies into the document. -/
structure LevelExtra where
  drawing : String
  elevation : Nat
  flattened_x_offset : Nat
  flattened_y_offset : Nat
deriving Repr, DecidableEq

/-- The per-level document value assembled by `save`, with exactly the
fields written in `save_load.rs` lines 124-137. -/
structure Level where
  vertices : List Vertex
  lanes : List Lane
  measurements : List Measurement
  walls : List Wall
  models : List Model
  drawing : String
  elevation : Nat
  flattened_x_offset : Nat
  flattened_y_offset : Nat
deriving Repr, DecidableEq

/-- The persisted root document assembled by `save` (`BuildingMap`),
with `levels` as a sorted name-keyed association list modelling
`BTreeMap<String, Level>`. -/
structure BuildingMap where
  name : String
  version : Option Nat
  crowd_sim : CrowdSim
  levels : List (String × Level)
deriving Repr, DecidableEq

/-- Modelled from the spec: the per-level vertex-identifier bookkeeping
structure of `spawner.rs` (not among the provided sources).  `entries`
maps a vertex identifier to its opaque stored handle; `add` assigns new
identifiers in strict insertion order starting at `nextId`, with no gaps
(spec 4.1: new identifiers are assigned in strict traversal order
starting at 0). -/
structure LevelVerticesManager where
  nextId : Nat
  entries : List (Nat × Nat)
deriving Repr, DecidableEq

/-- Modelled from the spec: `LevelVerticesManager::default()` is the empty
bookkeeping structure whose first assigned identifier is 0. -/
def LevelVerticesManager.empty : LevelVerticesManager :=
  { nextId := 0, entries := [] }

/-- Modelled from the spec: look an identifier up in the bookkeeping
structure (`vm.get(id)`). -/
def LevelVerticesManager.get (vm : LevelVerticesManager) (i : Nat) : Option Nat :=
  lookupA vm.entries i

/-- Modelled from the spec: `new_vm.add(handle)` stores the handle under
the next dense identifier and returns that identifier. -/
def LevelVerticesManager.add (vm : LevelVerticesManager) (handle : Nat) :
    Nat × LevelVerticesManager :=
  (vm.nextId, { nextId := vm.nextId + 1, entries := vm.entries ++ [(vm.nextId, handle)] })

/-- A child entity of a level in the scene graph.  In the entity/component
store every component is optional and queried independently, so a child is
modelled as a record of optional components (`Vertex`, `Id`, `Lane`,
`Measurement`, `Wall`, `Model`). -/
structure ChildEntity where
  vertex : Option Vertex
  id : Option Nat
  lane : Option Lane
  measurement : Option Measurement
  wall : Option Wall
  model : Option Model
deriving Repr, DecidableEq

/-- A level entity: a named child of the map root with its `LevelExtra`
metadata and its ordered child entities. -/
structure LevelEntity where
  name : String
  extra : LevelExtra
  children : List ChildEntity
deriving Repr, DecidableEq

/-- The map-root entity (`SiteMapRoot`): map name, crowd-simulation
configuration, and the ordered list of level entities. -/
structure RootEntity where
  name : String
  crowdSim : CrowdSim
  children : List LevelEntity
deriving Repr, DecidableEq

/-- The slice of the world the save pass reads and mutates: the entities
carrying `SiteMapRoot` and the `VerticesManagers` resource (level name →
per-level bookkeeping). -/
structure World where
  roots : List RootEntity
  vms : List (String × LevelVerticesManager)
deriving Repr, DecidableEq

/-- A pending save request carrying the target location
(`SaveMap(pub PathBuf)`). -/
structure SaveMap where
  path : String
deriving Repr, DecidableEq

/-- Outcome of one run of the save pass: no pending request (early
return, world untouched), a successful save (mutated world, assembled
document, target path handed to the sink), or an abort with no output. -/
inductive SaveResult where
  | noRequest (world : World)
  | saved (world : World) (map : BuildingMap) (path : String)
  | aborted (err : String)
deriving Repr, DecidableEq

/-- First pass over a level's children (`save_load.rs` lines 90-101):
for each child with a `Vertex` component, read its `Id`, look its handle
up in the old bookkeeping structure, give it the next dense identifier in
`newVm`, record old → new in `reid`, and push the vertex verbatim. -/
def collectVerticesAux (vm newVm : LevelVerticesManager) (reid : List (Nat × Nat)) :
    List ChildEntity →
    Except String (List Vertex × LevelVerticesManager × List (Nat × Nat))
  | [] => Except.ok ([], newVm, reid)
  | c :: rest =>
    match c.vertex with
    | none => collectVerticesAux vm newVm reid rest
    | some v =>
      match c.id with
      | none => Except.error "vertex entity has no Id component"
      | some i =>
        match vm.get i with
        | none => Except.error "vertex id missing from level vertices manager"
        | some handle =>
          let r := newVm.add handle
          match collectVerticesAux vm r.2 (insertA reid i r.1) rest with
          | Except.error e => Except.error e
          | Except.ok (vs, nvm, reid') => Except.ok (v :: vs, nvm, reid')

/-- Entry point of the first pass, starting from the default (empty)
`new_vm` and an empty re-keying map. -/
def collectVertices (vm : LevelVerticesManager) (children : List ChildEntity) :
    Except String (List Vertex × LevelVerticesManager × List (Nat × Nat)) :=
  collectVerticesAux vm LevelVerticesManager.empty [] children

/-- Rewrite the `Lane` component of one child through the re-keying map
(`lane.0 = vertices_reid[&lane.0]; lane.1 = vertices_reid[&lane.1]`),
returning the mutated child and the list pushed onto `lanes`.  A missing
key aborts, as indexing a `HashMap` with an absent key does. -/
def rewriteLane (reid : List (Nat × Nat)) (c : ChildEntity) :
    Except String (ChildEntity × List Lane) :=
  match c.lane with
  | none => Except.ok (c, [])
  | some l =>
    match lookupA reid l.a with
    | none => Except.error "lane start vertex missing from re-keying map"
    | some na =>
      match lookupA reid l.b with
      | none => Except.error "lane end vertex missing from re-keying map"
      | some nb =>
        Except.ok ({ c with lane := some { l with a := na, b := nb } },
                   [{ l with a := na, b := nb }])

/-- Rewrite the `Measurement` component of one child through the
re-keying map, returning the mutated child and the list pushed onto
`measurements`. -/
def rewriteMeasurement (reid : List (Nat × Nat)) (c : ChildEntity) :
    Except String (ChildEntity × List Measurement) :=
  match c.measurement with
  | none => Except.ok (c, [])
  | some m =>
    match lookupA reid m.a with
    | none => Except.error "measurement start vertex missing from re-keying map"
    | some na =>
      match lookupA reid m.b with
      | none => Except.error "measurement end vertex missing from re-keying map"
      | some nb =>
        Except.ok ({ c with measurement := some { m with a := na, b := nb } },
                   [{ m with a := na, b := nb }])

/-- Rewrite the `Wall` component of one child through the re-keying map,
returning the mutated child and the list pushed onto `walls`. -/
def rewriteWall (reid : List (Nat × Nat)) (c : ChildEntity) :
    Except String (ChildEntity × List Wall) :=
  match c.wall with
  | none => Except.ok (c, [])
  | some w =>
    match lookupA reid w.a with
    | none => Except.error "wall start vertex missing from re-keying map"
    | some na =>
      match lookupA reid w.b with
      | none => Except.error "wall end vertex missing from re-keying map"
      | some nb =>
        Except.ok ({ c with wall := some { w with a := na, b := nb } },
                   [{ w with a := na, b := nb }])

/-- One iteration of the second pass (`save_load.rs` lines 104-122): the
lane, measurement and wall components of the child are rewritten in place
and pushed, and the model component is pushed verbatim. -/
def rewriteChild (reid : List (Nat × Nat)) (c : ChildEntity) :
    Except String (ChildEntity × List Lane × List Measurement × List Wall × List Model) :=
  match rewriteLane reid c with
  | Except.error e => Except.error e
  | Except.ok (c1, ls) =>
    match rewriteMeasurement reid c1 with
    | Except.error e => Except.error e
    | Except.ok (c2, ms) =>
      match rewriteWall reid c2 with
      | Except.error e => Except.error e
      | Except.ok (c3, ws) =>
        Except.ok (c3, ls, ms, ws,
          match c3.model with
          | some m => [m]
          | none => [])

/-- Second pass over a level's children: rewrite every dependent entity's
reference pair through the re-keying map, accumulating the per-kind lists
in traversal order. -/
def rewriteChildren (reid : List (Nat × Nat)) :
    List ChildEntity →
    Except String (List ChildEntity × List Lane × List Measurement × List Wall × List Model)
  | [] => Except.ok ([], [], [], [], [])
  | c :: rest =>
    match rewriteChild reid c with
    | Except.error e => Except.error e
    | Except.ok (c', ls, ms, ws, mos) =>
      match rewriteChildren reid rest with
      | Except.error e => Except.error e
      | Except.ok (cs, ls', ms', ws', mos') =>
        Except.ok (c' :: cs, ls ++ ls', ms ++ ms', ws ++ ws', mos ++ mos')

/-- Process one level: fetch its bookkeeping structure from the
`VerticesManagers` resource, run the two passes, replace the bookkeeping
structure with the new dense assignment (`*vm = new_vm.clone()`), and
assemble the level document. -/
def processLevel (vms : List (String × LevelVerticesManager)) (L : LevelEntity) :
    Except String (List (String × LevelVerticesManager) × LevelEntity × Level) :=
  match lookupA vms L.name with
  | none => Except.error "no vertices manager for level"
  | some vm =>
    match collectVertices vm L.children with
    | Except.error e => Except.error e
    | Except.ok (verts, newVm, reid) =>
      let vms' := insertA vms L.name newVm
      match rewriteChildren reid L.children with
      | Except.error e => Except.error e
      | Except.ok (cs, ls, ms, ws, mos) =>
        Except.ok (vms', { L with children := cs },
          { vertices := verts, lanes := ls, measurements := ms, walls := ws,
            models := mos, drawing := L.extra.drawing,
            elevation := L.extra.elevation,
            flattened_x_offset := L.extra.flattened_x_offset,
            flattened_y_offset := L.extra.flattened_y_offset })

/-- Lexicographic strict order on character lists by code point, the
order `BTreeMap<String, _>` keeps its keys in. -/
def listCharLt : List Char → List Char → Bool
  | [], [] => false
  | [], _ :: _ => true
  | _ :: _, [] => false
  | c :: cs, d :: ds =>
    if c.toNat < d.toNat then true
    else if d.toNat < c.toNat then false
    else listCharLt cs ds

/-- Lexicographic strict order on strings by code point. -/
def strLt (s t : String) : Bool := listCharLt s.data t.data

/-- Insertion into the sorted name-keyed level collection, modelling
`BTreeMap::insert`: keeps keys strictly increasing and replaces the value
when the key is already present. -/
def btreeInsert : List (String × Level) → String → Level → List (String × Level)
  | [], k, v => [(k, v)]
  | (k', v') :: rest, k, v =>
    if strLt k k' then (k, v) :: (k', v') :: rest
    else if k = k' then (k, v) :: rest
    else (k', v') :: btreeInsert rest k v

/-- The loop over the root's children (`save_load.rs` lines 78-138):
process each level in traversal order, threading the `VerticesManagers`
resource, and insert each level document into the name-keyed collection. -/
def processLevels (vms : List (String × LevelVerticesManager))
    (acc : List (String × Level)) :
    List LevelEntity →
    Except String (List (String × LevelVerticesManager) × List LevelEntity × List (String × Level))
  | [] => Except.ok (vms, [], acc)
  | L :: rest =>
    match processLevel vms L with
    | Except.error e => Except.error e
    | Except.ok (vms', L', doc) =>
      match processLevels vms' (btreeInsert acc L.name doc) rest with
      | Except.error e => Except.error e
      | Except.ok (vms'', rest', acc') => Except.ok (vms'', L' :: rest', acc')

/-- The save pass (`save_load.rs` `fn save`): drain the pending save
events keeping only the last, return immediately when none is pending,
require exactly one `SiteMapRoot`, process every level, assemble the
`BuildingMap` with the fixed format version 2, and hand it with the
target path to the persistence sink. -/
def save (w : World) (events : List SaveMap) : SaveResult :=
  match events.getLast? with
  | none => SaveResult.noRequest w
  | some ev =>
    match w.roots with
    | [root] =>
      match processLevels w.vms [] root.children with
      | Except.error e => SaveResult.aborted e
      | Except.ok (vms', children', lvls) =>
        SaveResult.saved
          { roots := [{ root with children := children' }], vms := vms' }
          { name := root.name, version := some 2, crowd_sim := root.crowdSim,
            levels := lvls }
          ev.path
    | _ => SaveResult.aborted "ERROR: Cannot save map (expected exactly one SiteMapRoot)"

/-! ### Basic lemmas about the association-list and ordering helpers -/

/-- The lexicographic order on character lists is irreflexive. -/
theorem listCharLt_irrefl : ∀ l : List Char, listCharLt l l = false
  | [] => rfl
  | c :: cs => by simp [listCharLt, listCharLt_irrefl cs]

/-- The lexicographic order on strings is irreflexive. -/
theorem strLt_irrefl (s : String) : strLt s s = false :=
  listCharLt_irrefl s.data

/-! ### Concrete example scenes used by witnesses and counterexamples -/

/-- Example scene for the end-to-end test of spec 8: one level whose live
vertex identifiers are 3 and 7 in traversal order, with one lane
referencing (7, 3). -/
def exVm : LevelVerticesManager := { nextId := 8, entries := [(3, 103), (7, 107)] }

/-- Children of the example level: two vertices (ids 3 and 7) and a lane
referencing (7, 3). -/
def exChildren : List ChildEntity :=
  [ { vertex := some { data := 30 }, id := some 3, lane := none,
      measurement := none, wall := none, model := none },
    { vertex := some { data := 70 }, id := some 7, lane := none,
      measurement := none, wall := none, model := none },
    { vertex := none, id := none, lane := some { a := 7, b := 3, props := 9 },
      measurement := none, wall := none, model := none } ]

/-- The example level entity. -/
def exLevel : LevelEntity :=
  { name := "L1",
    extra := { drawing := "d", elevation := 1, flattened_x_offset := 2,
               flattened_y_offset := 3 },
    children := exChildren }

/-- The example map root with a single level. -/
def exRoot : RootEntity :=
  { name := "office", crowdSim := { data := 5 }, children := [exLevel] }

/-- The example world. -/
def exWorld : World := { roots := [exRoot], vms := [("L1", exVm)] }

/-- The level document the example level saves to. -/
def exDoc : Level :=
  { vertices := [{ data := 30 }, { data := 70 }],
    lanes := [{ a := 1, b := 0, props := 9 }],
    measurements := [], walls := [], models := [],
    drawing := "d", elevation := 1, flattened_x_offset := 2,
    flattened_y_offset := 3 }

/-- A single vertex child with live identifier 0, used by the
duplicate-level-name scene. -/
def dupChild : ChildEntity :=
  { vertex := some { data := 1 }, id := some 0, lane := none,
    measurement := none, wall := none, model := none }

/-- First level named "L" (drawing "one"). -/
def dupL1 : LevelEntity :=
  { name := "L",
    extra := { drawing := "one", elevation := 1, flattened_x_offset := 0,
               flattened_y_offset := 0 },
    children := [dupChild] }

/-- Second level, also named "L" (drawing "two"). -/
def dupL2 : LevelEntity :=
  { name := "L",
    extra := { drawing := "two", elevation := 2, flattened_x_offset := 0,
               flattened_y_offset := 0 },
    children := [dupChild] }

/-- A world whose root has two levels sharing the name "L". -/
def dupWorld : World :=
  { roots := [{ name := "m", crowdSim := { data := 0 },
                children := [dupL1, dupL2] }],
    vms := [("L", { nextId := 1, entries := [(0, 100)] })] }

/-- The level document the second duplicate-named level saves to. -/
def dupDoc2 : Level :=
  { vertices := [{ data := 1 }], lanes := [], measurements := [], walls := [],
    models := [], drawing := "two", elevation := 2, flattened_x_offset := 0,
    flattened_y_offset := 0 }

/-! ### Claim theorems: trigger handling, root precondition, examples -/

/-- C10: when no save request is pending, the save pass returns
immediately: the world is untouched, nothing is read or rewritten, and no
document is handed to the persistence sink. -/
theorem c10_no_request_no_effect (w : World) :
    save w [] = SaveResult.noRequest w := rfl

/-- Witness for C10 at a concrete world. -/
theorem c10_no_request_no_effect_witness :
    save exWorld [] = SaveResult.noRequest exWorld :=
  c10_no_request_no_effect exWorld

/-- C7: when several save requests are pending at the start of a pass,
the pass behaves exactly as if only the most recent request existed: only
its target location can receive output, and the older requests are
discarded without output of their own. -/
theorem c7_last_request_wins (w : World) (evs : List SaveMap) (ev : SaveMap) :
    save w (evs ++ [ev]) = save w [ev] := by
  simp only [save, List.getLast?_concat, List.getLast?_singleton]

/-- Witness for C7 at concrete requests: the older request's path is
ignored. -/
theorem c7_last_request_wins_witness :
    save exWorld [{ path := "old.yaml" }, { path := "new.yaml" }] =
      save exWorld [{ path := "new.yaml" }] :=
  c7_last_request_wins exWorld [{ path := "old.yaml" }] { path := "new.yaml" }

/-- C5: when the scene graph holds zero map-root entities or more than
one, the save pass aborts with the precondition failure before processing
any level, and no document is produced (the `aborted` outcome carries no
document and no path). -/
theorem c5_single_root_enforced (w : World) (evs : List SaveMap) (ev : SaveMap)
    (h : w.roots.length ≠ 1) :
    save w (evs ++ [ev]) =
      SaveResult.aborted "ERROR: Cannot save map (expected exactly one SiteMapRoot)" := by
  obtain ⟨roots, vms⟩ := w
  simp only [save, List.getLast?_concat]
  match roots, h with
  | [], _ => rfl
  | r1 :: r2 :: rest, _ => rfl
  | [r], h => exact absurd rfl h

/-- Witness for C5: a world with two roots aborts. -/
theorem c5_single_root_enforced_witness :
    save { roots := [exRoot, exRoot], vms := [] } [{ path := "a.yaml" }] =
      SaveResult.aborted "ERROR: Cannot save map (expected exactly one SiteMapRoot)" :=
  c5_single_root_enforced { roots := [exRoot, exRoot], vms := [] } []
    { path := "a.yaml" } (by decide)

/-- C6: the end-to-end example — a level whose live vertices carry
identifiers 3 and 7 in traversal order, with one lane referencing (7, 3),
saves to the vertex list [v3, v7] of length 2 and the lane reference pair
(1, 0). -/
theorem c6_end_to_end_example :
    (∃ w', save exWorld [{ path := "out.yaml" }] =
      SaveResult.saved w'
        { name := "office", version := some 2, crowd_sim := { data := 5 },
          levels := [("L1", exDoc)] }
        "out.yaml") ∧
    exDoc.vertices = [{ data := 30 }, { data := 70 }] ∧
    exDoc.vertices.length = 2 ∧
    exDoc.lanes = [{ a := 1, b := 0, props := 9 }] :=
  ⟨⟨_, rfl⟩, rfl, rfl, rfl⟩

/-- C3 counterexample: a world whose root carries two levels both named
"L" does not abort — the save succeeds and produces a document, and the
levels collection holds a single entry carrying only the second level's
content (drawing "two"), the first level having been silently
overwritten. -/
theorem c3_duplicate_names_counterexample :
    (∃ w', save dupWorld [{ path := "dup.yaml" }] =
      SaveResult.saved w'
        { name := "m", version := some 2, crowd_sim := { data := 0 },
          levels := [("L", dupDoc2)] }
        "dup.yaml") ∧
    dupL1.name = dupL2.name ∧
    dupDoc2.drawing = "two" :=
  ⟨⟨_, rfl⟩, rfl, rfl⟩

/-- C3 amended: when two levels under the root share a name and both
process successfully, the save does not abort with a duplicate-key error;
the later level's document silently replaces the earlier one's entry in
the name-keyed levels collection, which ends up holding the second
level's content only. -/
theorem c3_duplicate_names_overwrite (w : World) (root : RootEntity)
    (L1 L2 : LevelEntity) (ev : SaveMap)
    (vms1 vms2 : List (String × LevelVerticesManager))
    (L1' L2' : LevelEntity) (d1 d2 : Level)
    (hr : w.roots = [root])
    (hc : root.children = [L1, L2])
    (hn : L1.name = L2.name)
    (h1 : processLevel w.vms L1 = Except.ok (vms1, L1', d1))
    (h2 : processLevel vms1 L2 = Except.ok (vms2, L2', d2)) :
    save w [ev] =
      SaveResult.saved { roots := [{ root with children := [L1', L2'] }], vms := vms2 }
        { name := root.name, version := some 2, crowd_sim := root.crowdSim,
          levels := [(L2.name, d2)] }
        ev.path := by
  obtain ⟨roots, vms⟩ := w
  simp only at hr h1
  subst hr
  simp only [save, List.getLast?_singleton, hc, processLevels, h1, h2, btreeInsert]
  rw [← hn]
  simp [btreeInsert, strLt_irrefl]

/-- Witness for the amended C3 at the concrete duplicate-named world. -/
theorem c3_duplicate_names_overwrite_witness :
    save dupWorld [{ path := "dup.yaml" }] =
      SaveResult.saved
        { roots := [{ name := "m", crowdSim := { data := 0 },
                      children := [dupL1, dupL2] }],
          vms := [("L", { nextId := 1, entries := [(0, 100)] })] }
        { name := "m", version := some 2, crowd_sim := { data := 0 },
          levels := [("L", dupDoc2)] }
        "dup.yaml" :=
  c3_duplicate_names_overwrite dupWorld
    { name := "m", crowdSim := { data := 0 }, children := [dupL1, dupL2] }
    dupL1 dupL2 { path := "dup.yaml" }
    [("L", { nextId := 1, entries := [(0, 100)] })]
    [("L", { nextId := 1, entries := [(0, 100)] })]
    dupL1 dupL2
    { vertices := [{ data := 1 }], lanes := [], measurements := [], walls := [],
      models := [], drawing := "one", elevation := 1, flattened_x_offset := 0,
      flattened_y_offset := 0 }
    dupDoc2
    rfl rfl rfl rfl rfl

/-! ### Lemmas about lookupA and insertA -/

/-- A successful lookup exhibits a binding in the list. -/
theorem lookupA_mem {α β : Type} [DecidableEq α] :
    ∀ (l : List (α × β)) (k : α) (v : β), lookupA l k = some v → (k, v) ∈ l
  | [], k, v, h => by simp [lookupA] at h
  | (k', v') :: rest, k, v, h => by
    by_cases hk : k' = k
    · subst hk
      simp [lookupA] at h
      subst h
      exact List.mem_cons_self _ _
    · simp [lookupA, hk] at h
      exact List.mem_cons_of_mem _ (lookupA_mem rest k v h)

/-- Every binding of `insertA l k v` is a binding of `l` or the new one. -/
theorem mem_insertA {α β : Type} [DecidableEq α] :
    ∀ (l : List (α × β)) (k : α) (v : β) (p : α × β),
      p ∈ insertA l k v → p ∈ l ∨ p = (k, v)
  | [], k, v, p, h => by simpa [insertA] using h
  | (k', v') :: rest, k, v, p, h => by
    by_cases hk : k' = k
    · simp [insertA, hk] at h
      rcases h with h | h
      · exact Or.inr (by simp [h])
      · exact Or.inl (List.mem_cons_of_mem _ h)
    · simp only [insertA, if_neg hk, List.mem_cons] at h
      rcases h with h | h
      · exact Or.inl (by simp [h])
      · rcases mem_insertA rest k v p h with h | h
        · exact Or.inl (List.mem_cons_of_mem _ h)
        · exact Or.inr h

/-- Looking up the key just inserted returns the new value. -/
theorem lookupA_insertA_self {α β : Type} [DecidableEq α] :
    ∀ (l : List (α × β)) (k : α) (v : β), lookupA (insertA l k v) k = some v
  | [], k, v => by simp [insertA, lookupA]
  | (k', v') :: rest, k, v => by
    by_cases hk : k' = k
    · simp [insertA, hk, lookupA]
    · simp [insertA, hk, lookupA, lookupA_insertA_self rest k v]

/-! ### Specification of the first (re-keying) pass -/

/-- Invariants of `collectVerticesAux`: the collected vertices are the
`Vertex` components in traversal order, the new bookkeeping structure
extends the one passed in with consecutively numbered entries (one per
collected vertex, starting at the incoming `nextId`), and every binding
added to the re-keying map targets one of those new identifiers. -/
theorem collectVerticesAux_spec :
    ∀ (children : List ChildEntity) (vm nvm : LevelVerticesManager)
      (reid : List (Nat × Nat)) (vs : List Vertex)
      (nvm' : LevelVerticesManager) (reid' : List (Nat × Nat)),
      collectVerticesAux vm nvm reid children = Except.ok (vs, nvm', reid') →
      vs = children.filterMap ChildEntity.vertex ∧
      nvm'.nextId = nvm.nextId + vs.length ∧
      nvm'.entries.map Prod.fst =
        nvm.entries.map Prod.fst ++ List.range' nvm.nextId vs.length ∧
      (∀ p ∈ reid', p ∈ reid ∨ (nvm.nextId ≤ p.2 ∧ p.2 < nvm'.nextId))
  | [], vm, nvm, reid, vs, nvm', reid', h => by
    simp only [collectVerticesAux, Except.ok.injEq, Prod.mk.injEq] at h
    obtain ⟨h1, h2, h3⟩ := h
    subst h1; subst h2; subst h3
    exact ⟨rfl, by simp, by simp, fun p hp => Or.inl hp⟩
  | c :: rest, vm, nvm, reid, vs, nvm', reid', h => by
    simp only [collectVerticesAux] at h
    cases hv : c.vertex with
    | none =>
      simp only [hv] at h
      have ih := collectVerticesAux_spec rest vm nvm reid vs nvm' reid' h
      simpa [List.filterMap_cons, hv] using ih
    | some v =>
      simp only [hv] at h
      cases hid : c.id with
      | none => simp [hid] at h
      | some i =>
        simp only [hid] at h
        cases hg : vm.get i with
        | none => simp [hg] at h
        | some handle =>
          simp only [hg] at h
          cases hrec : collectVerticesAux vm (nvm.add handle).2
              (insertA reid i (nvm.add handle).1) rest with
          | error e => simp [hrec] at h
          | ok out =>
            obtain ⟨vs0, nvm0, reid0⟩ := out
            simp only [hrec, Except.ok.injEq, Prod.mk.injEq] at h
            have ih := collectVerticesAux_spec rest vm (nvm.add handle).2
              (insertA reid i (nvm.add handle).1) vs0 nvm0 reid0 hrec
            obtain ⟨h1, h2, h3⟩ := h
            subst h1; subst h2; subst h3
            obtain ⟨ihv, ihn, ihk, ihm⟩ := ih
            refine ⟨by simp [List.filterMap_cons, hv, ihv], ?_, ?_, ?_⟩
            · simp only [LevelVerticesManager.add] at ihn
              simp only [ihn, List.length_cons]
              omega
            · simp only [LevelVerticesManager.add] at ihk
              rw [ihk]
              simp only [List.map_append, List.map_cons, List.map_nil,
                List.length_cons]
              rw [List.append_assoc, List.singleton_append]
              rfl
            · intro p hp
              rcases ihm p hp with hmem | hbound
              · rcases mem_insertA reid i (nvm.add handle).1 p hmem with hmem' | hmem'
                · exact Or.inl hmem'
                · right
                  simp only [LevelVerticesManager.add] at ihn
                  subst hmem'
                  simp only [LevelVerticesManager.add]
                  omega
              · right
                simp only [LevelVerticesManager.add] at hbound ihn
                omega

/-- Specification of the complete first pass: starting from the default
bookkeeping structure, the collected vertices are the level's `Vertex`
components in traversal order, the i-th collected vertex receives new
identifier i (the new bookkeeping keys are exactly 0..n-1 in order), and
every binding of the re-keying map targets an identifier below n. -/
theorem collectVertices_spec (vm : LevelVerticesManager)
    (children : List ChildEntity) (vs : List Vertex)
    (nvm' : LevelVerticesManager) (reid' : List (Nat × Nat))
    (h : collectVertices vm children = Except.ok (vs, nvm', reid')) :
    vs = children.filterMap ChildEntity.vertex ∧
    nvm'.nextId = vs.length ∧
    nvm'.entries.map Prod.fst = List.range vs.length ∧
    (∀ p ∈ reid', p.2 < vs.length) := by
  have hs := collectVerticesAux_spec children vm LevelVerticesManager.empty [] vs nvm' reid' h
  obtain ⟨h1, h2, h3, h4⟩ := hs
  simp only [LevelVerticesManager.empty] at h2 h3 h4
  refine ⟨h1, by simpa using h2, ?_, ?_⟩
  · rw [List.range_eq_range']
    simpa using h3
  · intro p hp
    rcases h4 p hp with hmem | hbound
    · cases hmem
    · omega

/-! ### Specification of the second (reference-rewriting) pass -/

/-- The rewriting relation for one lane: the new reference pair is the
re-keying map applied componentwise to the old pair, and the auxiliary
attributes are untouched. -/
def laneRewritten (reid : List (Nat × Nat)) (old new : Lane) : Prop :=
  lookupA reid old.a = some new.a ∧ lookupA reid old.b = some new.b ∧
  new.props = old.props

/-- The rewriting relation for one measurement. -/
def measurementRewritten (reid : List (Nat × Nat)) (old new : Measurement) : Prop :=
  lookupA reid old.a = some new.a ∧ lookupA reid old.b = some new.b ∧
  new.props = old.props

/-- The rewriting relation for one wall. -/
def wallRewritten (reid : List (Nat × Nat)) (old new : Wall) : Prop :=
  lookupA reid old.a = some new.a ∧ lookupA reid old.b = some new.b ∧
  new.props = old.props

/-- `rewriteLane` touches only the lane component, and the pushed list is
the rewritten lane (empty when the child has no lane). -/
theorem rewriteLane_spec (reid : List (Nat × Nat)) (c c' : ChildEntity)
    (ls : List Lane) (h : rewriteLane reid c = Except.ok (c', ls)) :
    c'.vertex = c.vertex ∧ c'.id = c.id ∧ c'.measurement = c.measurement ∧
    c'.wall = c.wall ∧ c'.model = c.model ∧
    List.Forall₂ (laneRewritten reid) c.lane.toList ls := by
  cases hl : c.lane with
  | none =>
    simp only [rewriteLane, hl, Except.ok.injEq, Prod.mk.injEq] at h
    obtain ⟨h1, h2⟩ := h
    subst h1; subst h2
    exact ⟨rfl, rfl, rfl, rfl, rfl, by simp [hl]⟩
  | some l =>
    simp only [rewriteLane, hl] at h
    cases ha : lookupA reid l.a with
    | none => simp [ha] at h
    | some na =>
      simp only [ha] at h
      cases hb : lookupA reid l.b with
      | none => simp [hb] at h
      | some nb =>
        simp only [hb, Except.ok.injEq, Prod.mk.injEq] at h
        obtain ⟨h1, h2⟩ := h
        subst h1; subst h2
        refine ⟨rfl, rfl, rfl, rfl, rfl, ?_⟩
        simp only [hl, Option.toList_some]
        exact List.Forall₂.cons ⟨ha, hb, rfl⟩ List.Forall₂.nil

/-- `rewriteMeasurement` touches only the measurement component, and the
pushed list is the rewritten measurement. -/
theorem rewriteMeasurement_spec (reid : List (Nat × Nat)) (c c' : ChildEntity)
    (ms : List Measurement) (h : rewriteMeasurement reid c = Except.ok (c', ms)) :
    c'.vertex = c.vertex ∧ c'.id = c.id ∧ c'.lane = c.lane ∧
    c'.wall = c.wall ∧ c'.model = c.model ∧
    List.Forall₂ (measurementRewritten reid) c.measurement.toList ms := by
  cases hl : c.measurement with
  | none =>
    simp only [rewriteMeasurement, hl, Except.ok.injEq, Prod.mk.injEq] at h
    obtain ⟨h1, h2⟩ := h
    subst h1; subst h2
    exact ⟨rfl, rfl, rfl, rfl, rfl, by simp [hl]⟩
  | some m =>
    simp only [rewriteMeasurement, hl] at h
    cases ha : lookupA reid m.a with
    | none => simp [ha] at h
    | some na =>
      simp only [ha] at h
      cases hb : lookupA reid m.b with
      | none => simp [hb] at h
      | some nb =>
        simp only [hb, Except.ok.injEq, Prod.mk.injEq] at h
        obtain ⟨h1, h2⟩ := h
        subst h1; subst h2
        refine ⟨rfl, rfl, rfl, rfl, rfl, ?_⟩
        simp only [hl, Option.toList_some]
        exact List.Forall₂.cons ⟨ha, hb, rfl⟩ List.Forall₂.nil

/-- `rewriteWall` touches only the wall component, and the pushed list is
the rewritten wall. -/
theorem rewriteWall_spec (reid : List (Nat × Nat)) (c c' : ChildEntity)
    (ws : List Wall) (h : rewriteWall reid c = Except.ok (c', ws)) :
    c'.vertex = c.vertex ∧ c'.id = c.id ∧ c'.lane = c.lane ∧
    c'.measurement = c.measurement ∧ c'.model = c.model ∧
    List.Forall₂ (wallRewritten reid) c.wall.toList ws := by
  cases hl : c.wall with
  | none =>
    simp only [rewriteWall, hl, Except.ok.injEq, Prod.mk.injEq] at h
    obtain ⟨h1, h2⟩ := h
    subst h1; subst h2
    exact ⟨rfl, rfl, rfl, rfl, rfl, by simp [hl]⟩
  | some w =>
    simp only [rewriteWall, hl] at h
    cases ha : lookupA reid w.a with
    | none => simp [ha] at h
    | some na =>
      simp only [ha] at h
      cases hb : lookupA reid w.b with
      | none => simp [hb] at h
      | some nb =>
        simp only [hb, Except.ok.injEq, Prod.mk.injEq] at h
        obtain ⟨h1, h2⟩ := h
        subst h1; subst h2
        refine ⟨rfl, rfl, rfl, rfl, rfl, ?_⟩
        simp only [hl, Option.toList_some]
        exact List.Forall₂.cons ⟨ha, hb, rfl⟩ List.Forall₂.nil

/-- One step of the second pass: the vertex, id and model components of
the child are untouched, each dependent component is rewritten through
the re-keying map, and the model list is the model component verbatim. -/
theorem rewriteChild_spec (reid : List (Nat × Nat)) (c c' : ChildEntity)
    (ls : List Lane) (ms : List Measurement) (ws : List Wall) (mos : List Model)
    (h : rewriteChild reid c = Except.ok (c', ls, ms, ws, mos)) :
    c'.vertex = c.vertex ∧ c'.id = c.id ∧ c'.model = c.model ∧
    List.Forall₂ (laneRewritten reid) c.lane.toList ls ∧
    List.Forall₂ (measurementRewritten reid) c.measurement.toList ms ∧
    List.Forall₂ (wallRewritten reid) c.wall.toList ws ∧
    mos = c.model.toList := by
  cases h1 : rewriteLane reid c with
  | error e => simp [rewriteChild, h1] at h
  | ok out1 =>
    obtain ⟨c1, ls1⟩ := out1
    cases h2 : rewriteMeasurement reid c1 with
    | error e => simp [rewriteChild, h1, h2] at h
    | ok out2 =>
      obtain ⟨c2, ms2⟩ := out2
      cases h3 : rewriteWall reid c2 with
      | error e => simp [rewriteChild, h1, h2, h3] at h
      | ok out3 =>
        obtain ⟨c3, ws3⟩ := out3
        simp only [rewriteChild, h1, h2, h3, Except.ok.injEq, Prod.mk.injEq] at h
        obtain ⟨hc, hls, hms, hws, hmos⟩ := h
        subst hc; subst hls; subst hms; subst hws
        obtain ⟨v1, i1, m1, w1, mo1, f1⟩ := rewriteLane_spec reid c c1 ls1 h1
        obtain ⟨v2, i2, l2, w2, mo2, f2⟩ := rewriteMeasurement_spec reid c1 c2 ms2 h2
        obtain ⟨v3, i3, l3, m3, mo3, f3⟩ := rewriteWall_spec reid c2 c3 ws3 h3
        refine ⟨by rw [v3, v2, v1], by rw [i3, i2, i1], by rw [mo3, mo2, mo1],
          f1, by rw [m1] at f2; exact f2, by rw [w2, w1] at f3; exact f3, ?_⟩
        rw [← hmos, mo3, mo2, mo1]
        cases c.model <;> rfl

/-- `List.filterMap` over a cons, written with `Option.toList`. -/
theorem filterMap_cons_toList {α β : Type} (f : α → Option β) (c : α) (rest : List α) :
    List.filterMap f (c :: rest) = (f c).toList ++ List.filterMap f rest := by
  cases h : f c <;> simp [List.filterMap_cons, h]

/-- Specification of the second pass over a whole child list: the pushed
per-kind lists line up, entity by entity and in traversal order, with the
dependent components of the original children under the rewriting
relations; the model list is the original model components verbatim; and
the vertex, id and model components of the children are unchanged. -/
theorem rewriteChildren_spec :
    ∀ (reid : List (Nat × Nat)) (children cs : List ChildEntity)
      (ls : List Lane) (ms : List Measurement) (ws : List Wall) (mos : List Model),
      rewriteChildren reid children = Except.ok (cs, ls, ms, ws, mos) →
      List.Forall₂ (laneRewritten reid) (children.filterMap ChildEntity.lane) ls ∧
      List.Forall₂ (measurementRewritten reid)
        (children.filterMap ChildEntity.measurement) ms ∧
      List.Forall₂ (wallRewritten reid) (children.filterMap ChildEntity.wall) ws ∧
      mos = children.filterMap ChildEntity.model ∧
      cs.map ChildEntity.vertex = children.map ChildEntity.vertex ∧
      cs.map ChildEntity.id = children.map ChildEntity.id ∧
      cs.map ChildEntity.model = children.map ChildEntity.model
  | reid, [], cs, ls, ms, ws, mos, h => by
    simp only [rewriteChildren, Except.ok.injEq, Prod.mk.injEq] at h
    obtain ⟨h1, h2, h3, h4, h5⟩ := h
    subst h1; subst h2; subst h3; subst h4; subst h5
    simp
  | reid, c :: rest, cs, ls, ms, ws, mos, h => by
    cases h1 : rewriteChild reid c with
    | error e => simp [rewriteChildren, h1] at h
    | ok out1 =>
      obtain ⟨c', ls1, ms1, ws1, mos1⟩ := out1
      cases h2 : rewriteChildren reid rest with
      | error e => simp [rewriteChildren, h1, h2] at h
      | ok out2 =>
        obtain ⟨cs2, ls2, ms2, ws2, mos2⟩ := out2
        simp only [rewriteChildren, h1, h2, Except.ok.injEq, Prod.mk.injEq] at h
        obtain ⟨hc, hls, hms, hws, hmos⟩ := h
        subst hc; subst hls; subst hms; subst hws; subst hmos
        obtain ⟨sv, si, smo, sfl, sfm, sfw, smos⟩ :=
          rewriteChild_spec reid c c' ls1 ms1 ws1 mos1 h1
        obtain ⟨il, im, iw, imos, iv, ii, imodel⟩ :=
          rewriteChildren_spec reid rest cs2 ls2 ms2 ws2 mos2 h2
        refine ⟨?_, ?_, ?_, ?_, ?_, ?_, ?_⟩
        · rw [filterMap_cons_toList]
          exact List.rel_append sfl il
        · rw [filterMap_cons_toList]
          exact List.rel_append sfm im
        · rw [filterMap_cons_toList]
          exact List.rel_append sfw iw
        · rw [filterMap_cons_toList, smos, imos]
        · simp [sv, iv]
        · simp [si, ii]
        · simp [smo, imodel]

/-! ### Forall₂ helper and boundedness of rewritten pairs -/

/-- Every element of the right list of a `Forall₂` is related to some
element of the left list. -/
theorem forall₂_exists_left {α β : Type} {R : α → β → Prop} :
    ∀ {xs : List α} {ys : List β}, List.Forall₂ R xs ys → ∀ y ∈ ys, ∃ x ∈ xs, R x y := by
  intro xs ys h
  induction h with
  | nil => intro y hy; cases hy
  | cons hR hrest ih =>
    intro y hy
    rcases List.mem_cons.mp hy with rfl | hy
    · exact ⟨_, List.mem_cons_self _ _, hR⟩
    · obtain ⟨x, hx, hxy⟩ := ih y hy
      exact ⟨x, List.mem_cons_of_mem _ hx, hxy⟩

/-- Rewritten lane pairs only use identifiers the re-keying map can
produce. -/
theorem lanes_bounded (reid : List (Nat × Nat)) (n : Nat)
    (olds : List Lane) (news : List Lane)
    (hf : List.Forall₂ (laneRewritten reid) olds news)
    (hb : ∀ p ∈ reid, p.2 < n) :
    ∀ l ∈ news, l.a < n ∧ l.b < n := by
  intro l hl
  obtain ⟨old, _, ha, hbb, _⟩ := forall₂_exists_left hf l hl
  exact ⟨hb _ (lookupA_mem _ _ _ ha), hb _ (lookupA_mem _ _ _ hbb)⟩

/-- Rewritten measurement pairs only use identifiers the re-keying map
can produce. -/
theorem measurements_bounded (reid : List (Nat × Nat)) (n : Nat)
    (olds : List Measurement) (news : List Measurement)
    (hf : List.Forall₂ (measurementRewritten reid) olds news)
    (hb : ∀ p ∈ reid, p.2 < n) :
    ∀ m ∈ news, m.a < n ∧ m.b < n := by
  intro m hm
  obtain ⟨old, _, ha, hbb, _⟩ := forall₂_exists_left hf m hm
  exact ⟨hb _ (lookupA_mem _ _ _ ha), hb _ (lookupA_mem _ _ _ hbb)⟩

/-- Rewritten wall pairs only use identifiers the re-keying map can
produce. -/
theorem walls_bounded (reid : List (Nat × Nat)) (n : Nat)
    (olds : List Wall) (news : List Wall)
    (hf : List.Forall₂ (wallRewritten reid) olds news)
    (hb : ∀ p ∈ reid, p.2 < n) :
    ∀ w ∈ news, w.a < n ∧ w.b < n := by
  intro w hw
  obtain ⟨old, _, ha, hbb, _⟩ := forall₂_exists_left hf w hw
  exact ⟨hb _ (lookupA_mem _ _ _ ha), hb _ (lookupA_mem _ _ _ hbb)⟩

/-- Every reference pair persisted in a level document indexes into that
document's vertex list. -/
def refsBounded (doc : Level) : Prop :=
  (∀ l ∈ doc.lanes, l.a < doc.vertices.length ∧ l.b < doc.vertices.length) ∧
  (∀ m ∈ doc.measurements, m.a < doc.vertices.length ∧ m.b < doc.vertices.length) ∧
  (∀ w ∈ doc.walls, w.a < doc.vertices.length ∧ w.b < doc.vertices.length)

/-! ### The re-keying example values used by the C1/C2/C9 witnesses -/

/-- The dense bookkeeping structure built while saving the example
level. -/
def exVmAfter : LevelVerticesManager := { nextId := 2, entries := [(0, 103), (1, 107)] }

/-- The re-keying map built while saving the example level: 3 → 0,
7 → 1. -/
def exReid : List (Nat × Nat) := [(3, 0), (7, 1)]

/-- The example level's children after the save pass rewrote the lane in
place. -/
def exChildrenAfter : List ChildEntity :=
  [ { vertex := some { data := 30 }, id := some 3, lane := none,
      measurement := none, wall := none, model := none },
    { vertex := some { data := 70 }, id := some 7, lane := none,
      measurement := none, wall := none, model := none },
    { vertex := none, id := none, lane := some { a := 1, b := 0, props := 9 },
      measurement := none, wall := none, model := none } ]

/-- The example level entity after the save pass. -/
def exLevelAfter : LevelEntity :=
  { name := "L1",
    extra := { drawing := "d", elevation := 1, flattened_x_offset := 2,
               flattened_y_offset := 3 },
    children := exChildrenAfter }

/-! ### Claim theorems: re-keying and rewriting -/

/-- C1: for every dependent entity (lane, wall, measurement) present in a
level before the save, the persisted reference pair is the level's
re-keying map applied componentwise to the old pair — entity for entity
in traversal order, with auxiliary attributes untouched, so re-keying is
a consistent relabeling of the two endpoint vertices. -/
theorem c1_reference_pairs_rewritten
    (vms : List (String × LevelVerticesManager)) (L : LevelEntity)
    (vm nvm : LevelVerticesManager) (verts : List Vertex)
    (reid : List (Nat × Nat)) (vms' : List (String × LevelVerticesManager))
    (L' : LevelEntity) (doc : Level)
    (hvm : lookupA vms L.name = some vm)
    (hcol : collectVertices vm L.children = Except.ok (verts, nvm, reid))
    (hpl : processLevel vms L = Except.ok (vms', L', doc)) :
    List.Forall₂ (laneRewritten reid) (L.children.filterMap ChildEntity.lane) doc.lanes ∧
    List.Forall₂ (measurementRewritten reid)
      (L.children.filterMap ChildEntity.measurement) doc.measurements ∧
    List.Forall₂ (wallRewritten reid) (L.children.filterMap ChildEntity.wall) doc.walls := by
  simp only [processLevel, hvm, hcol] at hpl
  cases hrw : rewriteChildren reid L.children with
  | error e => simp [hrw] at hpl
  | ok out =>
    obtain ⟨cs, ls, ms, ws, mos⟩ := out
    simp only [hrw, Except.ok.injEq, Prod.mk.injEq] at hpl
    obtain ⟨h1, h2, h3⟩ := hpl
    subst h3
    obtain ⟨fl, fm, fw, _, _, _, _⟩ :=
      rewriteChildren_spec reid L.children cs ls ms ws mos hrw
    exact ⟨fl, fm, fw⟩

/-- Witness for C1 at the concrete example level. -/
theorem c1_reference_pairs_rewritten_witness :
    List.Forall₂ (laneRewritten exReid)
      (exLevel.children.filterMap ChildEntity.lane) exDoc.lanes ∧
    List.Forall₂ (measurementRewritten exReid)
      (exLevel.children.filterMap ChildEntity.measurement) exDoc.measurements ∧
    List.Forall₂ (wallRewritten exReid)
      (exLevel.children.filterMap ChildEntity.wall) exDoc.walls :=
  c1_reference_pairs_rewritten exWorld.vms exLevel exVm exVmAfter
    [{ data := 30 }, { data := 70 }] exReid [("L1", exVmAfter)]
    exLevelAfter exDoc rfl rfl rfl

/-- C2: for a saved level, the i-th collected vertex receives the new
identifier i — the new bookkeeping keys are exactly 0..n-1 in traversal
order, where n is the length of the persisted vertex list — and every
persisted reference pair in the level document uses only indices below n:
no gaps and no out-of-range indices. -/
theorem c2_density
    (vms : List (String × LevelVerticesManager)) (L : LevelEntity)
    (vm nvm : LevelVerticesManager) (verts : List Vertex)
    (reid : List (Nat × Nat)) (vms' : List (String × LevelVerticesManager))
    (L' : LevelEntity) (doc : Level)
    (hvm : lookupA vms L.name = some vm)
    (hcol : collectVertices vm L.children = Except.ok (verts, nvm, reid))
    (hpl : processLevel vms L = Except.ok (vms', L', doc)) :
    doc.vertices = verts ∧
    nvm.entries.map Prod.fst = List.range doc.vertices.length ∧
    (∀ p ∈ reid, p.2 < doc.vertices.length) ∧
    refsBounded doc := by
  simp only [processLevel, hvm, hcol] at hpl
  cases hrw : rewriteChildren reid L.children with
  | error e => simp [hrw] at hpl
  | ok out =>
    obtain ⟨cs, ls, ms, ws, mos⟩ := out
    simp only [hrw, Except.ok.injEq, Prod.mk.injEq] at hpl
    obtain ⟨h1, h2, h3⟩ := hpl
    subst h3
    obtain ⟨hverts, hnext, hkeys, hbound⟩ :=
      collectVertices_spec vm L.children verts nvm reid hcol
    obtain ⟨fl, fm, fw, _, _, _, _⟩ :=
      rewriteChildren_spec reid L.children cs ls ms ws mos hrw
    refine ⟨rfl, hkeys, hbound, ?_, ?_, ?_⟩
    · exact lanes_bounded reid verts.length _ ls fl hbound
    · exact measurements_bounded reid verts.length _ ms fm hbound
    · exact walls_bounded reid verts.length _ ws fw hbound

/-- Witness for C2 at the concrete example level. -/
theorem c2_density_witness :
    exDoc.vertices = [{ data := 30 }, { data := 70 }] ∧
    exVmAfter.entries.map Prod.fst = List.range exDoc.vertices.length ∧
    (∀ p ∈ exReid, p.2 < exDoc.vertices.length) ∧
    refsBounded exDoc :=
  c2_density exWorld.vms exLevel exVm exVmAfter
    [{ data := 30 }, { data := 70 }] exReid [("L1", exVmAfter)]
    exLevelAfter exDoc rfl rfl rfl

/-- C9: after a level is processed, the `VerticesManagers` entry for the
level has been replaced by the new dense assignment built during
re-keying; the vertices and models are copied into the document verbatim;
and in the live scene graph the vertex, id and model components of the
level's children are unmodified (only the dependent-entity reference
pairs were rewritten in place, and the level's name, metadata and child
count are untouched). -/
theorem c9_frame_effect
    (vms : List (String × LevelVerticesManager)) (L : LevelEntity)
    (vm nvm : LevelVerticesManager) (verts : List Vertex)
    (reid : List (Nat × Nat)) (vms' : List (String × LevelVerticesManager))
    (L' : LevelEntity) (doc : Level)
    (hvm : lookupA vms L.name = some vm)
    (hcol : collectVertices vm L.children = Except.ok (verts, nvm, reid))
    (hpl : processLevel vms L = Except.ok (vms', L', doc)) :
    vms' = insertA vms L.name nvm ∧
    lookupA vms' L.name = some nvm ∧
    nvm.entries.map Prod.fst = List.range doc.vertices.length ∧
    doc.vertices = L.children.filterMap ChildEntity.vertex ∧
    doc.models = L.children.filterMap ChildEntity.model ∧
    L'.name = L.name ∧ L'.extra = L.extra ∧
    L'.children.map ChildEntity.vertex = L.children.map ChildEntity.vertex ∧
    L'.children.map ChildEntity.id = L.children.map ChildEntity.id ∧
    L'.children.map ChildEntity.model = L.children.map ChildEntity.model := by
  simp only [processLevel, hvm, hcol] at hpl
  cases hrw : rewriteChildren reid L.children with
  | error e => simp [hrw] at hpl
  | ok out =>
    obtain ⟨cs, ls, ms, ws, mos⟩ := out
    simp only [hrw, Except.ok.injEq, Prod.mk.injEq] at hpl
    obtain ⟨h1, h2, h3⟩ := hpl
    subst h1; subst h2; subst h3
    obtain ⟨hverts, hnext, hkeys, hbound⟩ :=
      collectVertices_spec vm L.children verts nvm reid hcol
    obtain ⟨fl, fm, fw, hmos, hv, hi, hmo⟩ :=
      rewriteChildren_spec reid L.children cs ls ms ws mos hrw
    exact ⟨rfl, lookupA_insertA_self vms L.name nvm, hkeys, hverts, hmos,
      rfl, rfl, hv, hi, hmo⟩

/-- Witness for C9 at the concrete example level. -/
theorem c9_frame_effect_witness :
    [("L1", exVmAfter)] = insertA exWorld.vms exLevel.name exVmAfter ∧
    lookupA [("L1", exVmAfter)] exLevel.name = some exVmAfter ∧
    exVmAfter.entries.map Prod.fst = List.range exDoc.vertices.length ∧
    exDoc.vertices = exLevel.children.filterMap ChildEntity.vertex ∧
    exDoc.models = exLevel.children.filterMap ChildEntity.model ∧
    exLevelAfter.name = exLevel.name ∧ exLevelAfter.extra = exLevel.extra ∧
    exLevelAfter.children.map ChildEntity.vertex =
      exLevel.children.map ChildEntity.vertex ∧
    exLevelAfter.children.map ChildEntity.id = exLevel.children.map ChildEntity.id ∧
    exLevelAfter.children.map ChildEntity.model =
      exLevel.children.map ChildEntity.model :=
  c9_frame_effect exWorld.vms exLevel exVm exVmAfter
    [{ data := 30 }, { data := 70 }] exReid [("L1", exVmAfter)]
    exLevelAfter exDoc rfl rfl rfl

/-! ### Dangling references abort the save (C4) -/

/-- A child one of whose dependent components (lane, measurement, wall)
stores a vertex identifier that is absent from the re-keying map. -/
def danglingChild (reid : List (Nat × Nat)) (c : ChildEntity) : Prop :=
  (∃ l, c.lane = some l ∧ (lookupA reid l.a = none ∨ lookupA reid l.b = none)) ∨
  (∃ m, c.measurement = some m ∧
    (lookupA reid m.a = none ∨ lookupA reid m.b = none)) ∨
  (∃ w, c.wall = some w ∧ (lookupA reid w.a = none ∨ lookupA reid w.b = none))

/-- A lane referencing an identifier outside the map makes `rewriteLane`
fail. -/
theorem rewriteLane_error (reid : List (Nat × Nat)) (c : ChildEntity) (l : Lane)
    (hl : c.lane = some l)
    (hd : lookupA reid l.a = none ∨ lookupA reid l.b = none) :
    ∃ e, rewriteLane reid c = Except.error e := by
  rcases hd with hd | hd
  · exact ⟨"lane start vertex missing from re-keying map",
      by simp [rewriteLane, hl, hd]⟩
  · cases ha : lookupA reid l.a with
    | none => exact ⟨"lane start vertex missing from re-keying map",
        by simp [rewriteLane, hl, ha]⟩
    | some na => exact ⟨"lane end vertex missing from re-keying map",
        by simp [rewriteLane, hl, ha, hd]⟩

/-- A measurement referencing an identifier outside the map makes
`rewriteMeasurement` fail. -/
theorem rewriteMeasurement_error (reid : List (Nat × Nat)) (c : ChildEntity)
    (m : Measurement) (hm : c.measurement = some m)
    (hd : lookupA reid m.a = none ∨ lookupA reid m.b = none) :
    ∃ e, rewriteMeasurement reid c = Except.error e := by
  rcases hd with hd | hd
  · exact ⟨"measurement start vertex missing from re-keying map",
      by simp [rewriteMeasurement, hm, hd]⟩
  · cases ha : lookupA reid m.a with
    | none => exact ⟨"measurement start vertex missing from re-keying map",
        by simp [rewriteMeasurement, hm, ha]⟩
    | some na => exact ⟨"measurement end vertex missing from re-keying map",
        by simp [rewriteMeasurement, hm, ha, hd]⟩

/-- A wall referencing an identifier outside the map makes `rewriteWall`
fail. -/
theorem rewriteWall_error (reid : List (Nat × Nat)) (c : ChildEntity)
    (w : Wall) (hw : c.wall = some w)
    (hd : lookupA reid w.a = none ∨ lookupA reid w.b = none) :
    ∃ e, rewriteWall reid c = Except.error e := by
  rcases hd with hd | hd
  · exact ⟨"wall start vertex missing from re-keying map",
      by simp [rewriteWall, hw, hd]⟩
  · cases ha : lookupA reid w.a with
    | none => exact ⟨"wall start vertex missing from re-keying map",
        by simp [rewriteWall, hw, ha]⟩
    | some na => exact ⟨"wall end vertex missing from re-keying map",
        by simp [rewriteWall, hw, ha, hd]⟩

/-- A dangling child makes the per-child rewrite step fail: the entity is
never dropped and its reference never replaced by a default. -/
theorem rewriteChild_error_of_dangling (reid : List (Nat × Nat)) (c : ChildEntity)
    (hd : danglingChild reid c) :
    ∃ e, rewriteChild reid c = Except.error e := by
  rcases hd with ⟨l, hl, hdl⟩ | ⟨m, hm, hdm⟩ | ⟨w, hw, hdw⟩
  · obtain ⟨e, he⟩ := rewriteLane_error reid c l hl hdl
    exact ⟨e, by simp [rewriteChild, he]⟩
  · cases h1 : rewriteLane reid c with
    | error e => exact ⟨e, by simp [rewriteChild, h1]⟩
    | ok out1 =>
      obtain ⟨c1, ls1⟩ := out1
      obtain ⟨_, _, hmeq, _, _, _⟩ := rewriteLane_spec reid c c1 ls1 h1
      obtain ⟨e, he⟩ := rewriteMeasurement_error reid c1 m (hmeq.trans hm) hdm
      exact ⟨e, by simp [rewriteChild, h1, he]⟩
  · cases h1 : rewriteLane reid c with
    | error e => exact ⟨e, by simp [rewriteChild, h1]⟩
    | ok out1 =>
      obtain ⟨c1, ls1⟩ := out1
      obtain ⟨_, _, _, hweq1, _, _⟩ := rewriteLane_spec reid c c1 ls1 h1
      cases h2 : rewriteMeasurement reid c1 with
      | error e => exact ⟨e, by simp [rewriteChild, h1, h2]⟩
      | ok out2 =>
        obtain ⟨c2, ms2⟩ := out2
        obtain ⟨_, _, _, hweq2, _, _⟩ := rewriteMeasurement_spec reid c1 c2 ms2 h2
        obtain ⟨e, he⟩ :=
          rewriteWall_error reid c2 w ((hweq2.trans hweq1).trans hw) hdw
        exact ⟨e, by simp [rewriteChild, h1, h2, he]⟩

/-- Any dangling child anywhere in the list makes the whole second pass
fail. -/
theorem rewriteChildren_error_of_dangling :
    ∀ (reid : List (Nat × Nat)) (children : List ChildEntity) (c : ChildEntity),
      c ∈ children → danglingChild reid c →
      ∃ e, rewriteChildren reid children = Except.error e
  | reid, [], c, hmem, _ => absurd hmem (List.not_mem_nil c)
  | reid, c0 :: rest, c, hmem, hd => by
    rcases List.mem_cons.mp hmem with rfl | hmem
    · obtain ⟨e, he⟩ := rewriteChild_error_of_dangling reid c hd
      exact ⟨e, by simp [rewriteChildren, he]⟩
    · cases h1 : rewriteChild reid c0 with
      | error e => exact ⟨e, by simp [rewriteChildren, h1]⟩
      | ok out1 =>
        obtain ⟨c', ls1, ms1, ws1, mos1⟩ := out1
        obtain ⟨e, he⟩ := rewriteChildren_error_of_dangling reid rest c hmem hd
        exact ⟨e, by simp [rewriteChildren, h1, he]⟩

/-- A dangling child in a level makes the level's processing fail. -/
theorem processLevel_error_of_dangling
    (vms : List (String × LevelVerticesManager)) (L : LevelEntity)
    (vm nvm : LevelVerticesManager) (verts : List Vertex)
    (reid : List (Nat × Nat)) (c : ChildEntity)
    (hvm : lookupA vms L.name = some vm)
    (hcol : collectVertices vm L.children = Except.ok (verts, nvm, reid))
    (hmem : c ∈ L.children) (hd : danglingChild reid c) :
    ∃ e, processLevel vms L = Except.error e := by
  obtain ⟨e, he⟩ := rewriteChildren_error_of_dangling reid L.children c hmem hd
  exact ⟨e, by simp [processLevel, hvm, hcol, he]⟩

/-- A failing level aborts the whole loop over the root's children. -/
theorem processLevels_error_append :
    ∀ (pre : List LevelEntity) (vms : List (String × LevelVerticesManager))
      (acc : List (String × Level)) (L : LevelEntity) (post : List LevelEntity)
      (vms1 : List (String × LevelVerticesManager)) (pre' : List LevelEntity)
      (acc1 : List (String × Level)) (e : String),
      processLevels vms acc pre = Except.ok (vms1, pre', acc1) →
      processLevel vms1 L = Except.error e →
      processLevels vms acc (pre ++ L :: post) = Except.error e
  | [], vms, acc, L, post, vms1, pre', acc1, e, hpre, hL => by
    simp only [processLevels, Except.ok.injEq, Prod.mk.injEq] at hpre
    obtain ⟨h1, h2, h3⟩ := hpre
    subst h1; subst h3
    simp [processLevels, hL]
  | L0 :: pre, vms, acc, L, post, vms1, pre', acc1, e, hpre, hL => by
    cases h0 : processLevel vms L0 with
    | error e0 => simp [processLevels, h0] at hpre
    | ok out =>
      obtain ⟨vms0, L0', doc0⟩ := out
      simp only [processLevels, h0] at hpre
      cases hrec : processLevels vms0 (btreeInsert acc L0.name doc0) pre with
      | error e0 => simp [hrec] at hpre
      | ok out2 =>
        obtain ⟨vmsA, preA, accA⟩ := out2
        simp only [hrec, Except.ok.injEq, Prod.mk.injEq] at hpre
        obtain ⟨h1, h2, h3⟩ := hpre
        subst h1; subst h3
        have hstep := processLevels_error_append pre vms0
          (btreeInsert acc L0.name doc0) L post vmsA preA accA e hrec hL
        simp [processLevels, h0, hstep]

/-- C4: when any dependent entity (lane, wall or measurement) of a level
stores a vertex identifier that is absent from the level's re-keying map,
the whole save pass aborts: no document is assembled and nothing is
handed to the persistence sink, rather than dropping the entity or
substituting a default reference. -/
theorem c4_dangling_reference_aborts
    (w : World) (root : RootEntity) (ev : SaveMap)
    (pre post : List LevelEntity) (L : LevelEntity)
    (vms1 : List (String × LevelVerticesManager)) (pre' : List LevelEntity)
    (acc1 : List (String × Level))
    (vm nvm : LevelVerticesManager) (verts : List Vertex)
    (reid : List (Nat × Nat)) (c : ChildEntity)
    (hr : w.roots = [root])
    (hc : root.children = pre ++ L :: post)
    (hpre : processLevels w.vms [] pre = Except.ok (vms1, pre', acc1))
    (hvm : lookupA vms1 L.name = some vm)
    (hcol : collectVertices vm L.children = Except.ok (verts, nvm, reid))
    (hmem : c ∈ L.children) (hd : danglingChild reid c) :
    ∃ e, save w [ev] = SaveResult.aborted e := by
  obtain ⟨e, he⟩ :=
    processLevel_error_of_dangling vms1 L vm nvm verts reid c hvm hcol hmem hd
  have hfold := processLevels_error_append pre w.vms [] L post vms1 pre' acc1 e hpre he
  refine ⟨e, ?_⟩
  obtain ⟨roots, vms⟩ := w
  simp only at hr hfold
  subst hr
  simp [save, hc, hfold]

/-- The scene used by the C4 witness: one level whose lane references the
missing vertex identifier 5. -/
def badLevel : LevelEntity :=
  { name := "L0",
    extra := { drawing := "d", elevation := 0, flattened_x_offset := 0,
               flattened_y_offset := 0 },
    children :=
      [ { vertex := some { data := 1 }, id := some 0, lane := none,
          measurement := none, wall := none, model := none },
        { vertex := none, id := none, lane := some { a := 0, b := 5, props := 0 },
          measurement := none, wall := none, model := none } ] }

/-- The world used by the C4 witness. -/
def badWorld : World :=
  { roots := [{ name := "m", crowdSim := { data := 0 }, children := [badLevel] }],
    vms := [("L0", { nextId := 1, entries := [(0, 50)] })] }

/-- Witness for C4 at the concrete dangling-lane world. -/
theorem c4_dangling_reference_aborts_witness :
    ∃ e, save badWorld [{ path := "bad.yaml" }] = SaveResult.aborted e :=
  c4_dangling_reference_aborts badWorld
    { name := "m", crowdSim := { data := 0 }, children := [badLevel] }
    { path := "bad.yaml" } [] [] badLevel
    [("L0", { nextId := 1, entries := [(0, 50)] })] [] []
    { nextId := 1, entries := [(0, 50)] }
    { nextId := 1, entries := [(0, 50)] }
    [{ data := 1 }] [(0, 0)]
    { vertex := none, id := none, lane := some { a := 0, b := 5, props := 0 },
      measurement := none, wall := none, model := none }
    rfl rfl rfl rfl rfl (by decide)
    (Or.inl ⟨{ a := 0, b := 5, props := 0 }, rfl, Or.inr rfl⟩)

/-! ### Order lemmas for the sorted levels collection (C8) -/

/-- The lexicographic order on character lists is transitive. -/
theorem listCharLt_trans :
    ∀ (a b c : List Char), listCharLt a b = true → listCharLt b c = true →
      listCharLt a c = true
  | a, [], c, h1, h2 => by
    cases c with
    | nil => simp [listCharLt] at h2
    | cons z zs =>
      cases a with
      | nil => rfl
      | cons x xs => simp [listCharLt] at h1
  | a, y :: ys, [], h1, h2 => by simp [listCharLt] at h2
  | [], y :: ys, z :: zs, h1, h2 => rfl
  | x :: xs, y :: ys, z :: zs, h1, h2 => by
    simp only [listCharLt] at h1 h2 ⊢
    split_ifs at h1 h2 ⊢ <;>
      first
      | rfl
      | exact Bool.noConfusion h1
      | exact Bool.noConfusion h2
      | (exfalso; omega)
      | exact listCharLt_trans xs ys zs h1 h2

/-- The lexicographic order on character lists is total on distinct
lists. -/
theorem listCharLt_total :
    ∀ (a b : List Char), a ≠ b → listCharLt a b = true ∨ listCharLt b a = true
  | [], [], h => absurd rfl h
  | [], y :: ys, _ => Or.inl rfl
  | x :: xs, [], _ => Or.inr rfl
  | x :: xs, y :: ys, h => by
    rcases Nat.lt_trichotomy x.toNat y.toNat with hxy | hxy | hxy
    · left; simp [listCharLt, hxy]
    · have hx : x = y := Char.ext (UInt32.ext hxy)
      subst hx
      have hne : xs ≠ ys := fun hEq => h (by rw [hEq])
      rcases listCharLt_total xs ys hne with hlt | hlt <;>
        simp [listCharLt, Nat.lt_irrefl, hlt]
    · right; simp [listCharLt, hxy, Nat.lt_asymm hxy]

/-- The lexicographic order on strings is transitive. -/
theorem strLt_trans (s t u : String) (h1 : strLt s t = true)
    (h2 : strLt t u = true) : strLt s u = true :=
  listCharLt_trans s.data t.data u.data h1 h2

/-- The lexicographic order on strings is total on distinct strings. -/
theorem strLt_total (s t : String) (h : s ≠ t) :
    strLt s t = true ∨ strLt t s = true := by
  refine listCharLt_total s.data t.data fun hd => h ?_
  cases s with
  | mk ds =>
    cases t with
    | mk dt =>
      simp only at hd
      rw [hd]

/-- Every binding of `btreeInsert l k v` is a binding of `l` or the new
one. -/
theorem mem_btreeInsert :
    ∀ (l : List (String × Level)) (k : String) (v : Level) (p : String × Level),
      p ∈ btreeInsert l k v → p ∈ l ∨ p = (k, v)
  | [], k, v, p, h => by simpa [btreeInsert] using h
  | (k', v') :: rest, k, v, p, h => by
    simp only [btreeInsert] at h
    by_cases h1 : strLt k k' = true
    · rw [if_pos h1] at h
      rcases List.mem_cons.mp h with rfl | h
      · exact Or.inr rfl
      · exact Or.inl h
    · rw [if_neg h1] at h
      by_cases h2 : k = k'
      · rw [if_pos h2] at h
        rcases List.mem_cons.mp h with rfl | h
        · exact Or.inr rfl
        · exact Or.inl (List.mem_cons_of_mem _ h)
      · rw [if_neg h2] at h
        rcases List.mem_cons.mp h with rfl | h
        · exact Or.inl (List.mem_cons_self _ _)
        · rcases mem_btreeInsert rest k v p h with h | h
          · exact Or.inl (List.mem_cons_of_mem _ h)
          · exact Or.inr h

/-- `btreeInsert` preserves the strictly-increasing-keys invariant of the
levels collection. -/
theorem btreeInsert_sorted :
    ∀ (l : List (String × Level)) (k : String) (v : Level),
      l.Pairwise (fun x y => strLt x.1 y.1 = true) →
      (btreeInsert l k v).Pairwise (fun x y => strLt x.1 y.1 = true)
  | [], k, v, _ => by simp [btreeInsert]
  | (k', v') :: rest, k, v, h => by
    obtain ⟨hhead, hrest⟩ := List.pairwise_cons.mp h
    simp only [btreeInsert]
    by_cases h1 : strLt k k' = true
    · rw [if_pos h1]
      refine List.Pairwise.cons ?_ h
      intro y hy
      rcases List.mem_cons.mp hy with rfl | hy
      · exact h1
      · exact strLt_trans k k' y.1 h1 (hhead y hy)
    · rw [if_neg h1]
      by_cases h2 : k = k'
      · rw [if_pos h2]
        subst h2
        exact List.Pairwise.cons (fun y hy => hhead y hy) hrest
      · rw [if_neg h2]
        refine List.Pairwise.cons ?_ (btreeInsert_sorted rest k v hrest)
        intro y hy
        rcases mem_btreeInsert rest k v y hy with hy' | hy'
        · exact hhead y hy'
        · rw [hy']
          rcases strLt_total k k' h2 with hlt | hlt
          · exact absurd hlt h1
          · exact hlt

/-- The loop over levels keeps the accumulated collection sorted. -/
theorem processLevels_sorted :
    ∀ (children : List LevelEntity) (vms : List (String × LevelVerticesManager))
      (acc : List (String × Level))
      (vms' : List (String × LevelVerticesManager))
      (children' : List LevelEntity) (lvls : List (String × Level)),
      acc.Pairwise (fun x y => strLt x.1 y.1 = true) →
      processLevels vms acc children = Except.ok (vms', children', lvls) →
      lvls.Pairwise (fun x y => strLt x.1 y.1 = true)
  | [], vms, acc, vms', children', lvls, hacc, h => by
    simp only [processLevels, Except.ok.injEq, Prod.mk.injEq] at h
    obtain ⟨h1, h2, h3⟩ := h
    subst h3
    exact hacc
  | L :: rest, vms, acc, vms', children', lvls, hacc, h => by
    cases h0 : processLevel vms L with
    | error e => simp [processLevels, h0] at h
    | ok out =>
      obtain ⟨vms0, L0', doc0⟩ := out
      simp only [processLevels, h0] at h
      cases hrec : processLevels vms0 (btreeInsert acc L.name doc0) rest with
      | error e => simp [hrec] at h
      | ok out2 =>
        obtain ⟨vmsA, restA, accA⟩ := out2
        simp only [hrec, Except.ok.injEq, Prod.mk.injEq] at h
        obtain ⟨h1, h2, h3⟩ := h
        subst h3
        exact processLevels_sorted rest vms0 (btreeInsert acc L.name doc0)
          vmsA restA accA (btreeInsert_sorted acc L.name doc0 hacc) hrec

/-- C8: every document the save pass hands to the persistence sink
carries the fixed format-version constant 2, and its levels collection
has strictly increasing names — it is keyed by level name and iterated in
sorted name order, whatever the traversal order of the levels in the
scene graph was. -/
theorem c8_version_and_name_order (w : World) (events : List SaveMap)
    (w' : World) (m : BuildingMap) (p : String)
    (h : save w events = SaveResult.saved w' m p) :
    m.version = some 2 ∧ m.levels.Pairwise (fun x y => strLt x.1 y.1 = true) := by
  obtain ⟨roots, vms⟩ := w
  simp only [save] at h
  cases hE : events.getLast? with
  | none =>
    simp only [hE] at h
    exact SaveResult.noConfusion h
  | some ev =>
    simp only [hE] at h
    match roots, h with
    | [], h => exact SaveResult.noConfusion h
    | r1 :: r2 :: rs, h => exact SaveResult.noConfusion h
    | [root], h =>
      cases hP : processLevels vms [] root.children with
      | error e =>
        simp only [hP] at h
        exact SaveResult.noConfusion h
      | ok out =>
        obtain ⟨vms2, ch2, lvls⟩ := out
        simp only [hP] at h
        simp only [SaveResult.saved.injEq] at h
        obtain ⟨hw, hm, hp⟩ := h
        subst hm
        exact ⟨rfl, processLevels_sorted root.children vms [] vms2 ch2 lvls
          List.Pairwise.nil hP⟩

/-- The world after saving the example scene. -/
def exWorldAfter : World :=
  { roots := [{ name := "office", crowdSim := { data := 5 },
                children := [exLevelAfter] }],
    vms := [("L1", exVmAfter)] }

/-- The document the example scene saves to. -/
def exMap : BuildingMap :=
  { name := "office", version := some 2, crowd_sim := { data := 5 },
    levels := [("L1", exDoc)] }

/-- Witness for C8 at the concrete example world. -/
theorem c8_version_and_name_order_witness :
    exMap.version = some 2 ∧
    exMap.levels.Pairwise (fun x y => strLt x.1 y.1 = true) :=
  c8_version_and_name_order exWorld [{ path := "out.yaml" }]
    exWorldAfter exMap "out.yaml" rfl
